import Mathlib

/-!
Verification development for the query-understanding pipeline of the
college-chatbot backend (`src/pages/api/ask.js` and its revisions in
`src/unnamed/`).  The JavaScript source is shallowly embedded: pure JS
functions become Lean functions on `String` / `List Char`, the external
collaborators (Supabase fetches, LLM HTTP calls, `JSON.parse`) become
explicit oracle parameters, and the HTTP handler becomes a function from
an environment and a question to a response value plus a record of which
collaborators were contacted.
-/

set_option maxRecDepth 100000

namespace CollageAsk

/-! ## Character classes and JS string primitives

`\w` in a JavaScript regex is `[A-Za-z0-9_]`; `\s` is the whitespace
class (modelled here by its ASCII members).  `toLowerCase` is modelled
on the ASCII range, which is the range the alias table and the queries
in the claims exercise. -/

def isWordChar (c : Char) : Bool :=
  (97 ≤ c.toNat && c.toNat ≤ 122) || (65 ≤ c.toNat && c.toNat ≤ 90) ||
    (48 ≤ c.toNat && c.toNat ≤ 57) || c.toNat == 95

def isJsSpace (c : Char) : Bool :=
  c.toNat == 32 || c.toNat == 9 || c.toNat == 10 || c.toNat == 13 ||
    c.toNat == 11 || c.toNat == 12

def jsToLower (c : Char) : Char :=
  if 65 ≤ c.toNat && c.toNat ≤ 90 then Char.ofNat (c.toNat + 32) else c

/-- Bridge: `Char.ofNat` evaluates to the given code point when it is valid. -/
theorem charToNat_ofNat (n : Nat) (h : n.isValidChar) : (Char.ofNat n).toNat = n := by
  unfold Char.ofNat
  rw [dif_pos h]
  rfl

/-- Bridge: characters with equal code points are equal. -/
theorem charEq_of_toNat {c d : Char} (h : c.toNat = d.toNat) : c = d := by
  cases c; cases d
  simp only [Char.toNat] at h
  congr 1
  exact UInt32.toNat.inj h

theorem toNat_jsToLower_of_upper {c : Char} (h : 65 ≤ c.toNat ∧ c.toNat ≤ 90) :
    (jsToLower c).toNat = c.toNat + 32 := by
  have hv : (c.toNat + 32).isValidChar := Or.inl (by omega)
  unfold jsToLower
  have hc : (decide (65 ≤ c.toNat) && decide (c.toNat ≤ 90)) = true := by
    simp [h.1, h.2]
  rw [if_pos hc]
  exact charToNat_ofNat _ hv

theorem jsToLower_eq_self_of_not_upper {c : Char} (h : ¬(65 ≤ c.toNat ∧ c.toNat ≤ 90)) :
    jsToLower c = c := by
  unfold jsToLower
  split
  · next hc =>
      exfalso
      apply h
      simpa using hc
  · rfl

/-- Lowering is idempotent. -/
theorem jsToLower_idem (c : Char) : jsToLower (jsToLower c) = jsToLower c := by
  by_cases h : 65 ≤ c.toNat ∧ c.toNat ≤ 90
  · have h1 := toNat_jsToLower_of_upper h
    apply jsToLower_eq_self_of_not_upper
    omega
  · rw [jsToLower_eq_self_of_not_upper h]
    exact jsToLower_eq_self_of_not_upper h

/-! ## `normalizeText` (ask.js lines 23–29)

```js
function normalizeText(s = "") {
  return String(s || "")
    .toLowerCase()
    .replace(/[^\w\s]/g, " ")
    .replace(/\s+/g, " ")
    .trim();
}
```
-/

/-- One character of the `.replace(/[^\w\s]/g, " ")` pass. -/
def replBad (c : Char) : Char :=
  if isWordChar c || isJsSpace c then c else ' '

/-- The `.replace(/\s+/g, " ")` pass: every maximal run of whitespace
characters becomes a single ASCII space.  The Boolean argument records
whether a whitespace run is pending. -/
def collapseAux : Bool → List Char → List Char
  | false, [] => []
  | true, [] => [' ']
  | false, c :: r => if isJsSpace c then collapseAux true r else c :: collapseAux false r
  | true, c :: r => if isJsSpace c then collapseAux true r else ' ' :: c :: collapseAux false r

def collapseSpaces (l : List Char) : List Char := collapseAux false l

/-- Remove trailing whitespace characters. -/
def trimRight : List Char → List Char
  | [] => []
  | c :: t =>
    match trimRight t with
    | [] => if isJsSpace c then [] else [c]
    | r => c :: r

/-- `String.prototype.trim`: whitespace removed from both ends. -/
def jsTrimList (l : List Char) : List Char := trimRight (l.dropWhile isJsSpace)

def jsTrim (s : String) : String := String.mk (jsTrimList s.data)

def normList (l : List Char) : List Char :=
  jsTrimList (collapseSpaces (l.map (fun c => replBad (jsToLower c))))

/-- `normalizeText` restricted to string input (the coercion `String(s || "")`
is the identity on strings, since a falsy string is already `""`). -/
def normalizeTextStr (s : String) : String := String.mk (normList s.data)

/-- Values `normalizeText` may receive: `null`/`undefined`, strings, and
numbers (coerced by `String(·)`; integers only — the repo passes row fields
and request text, never fractional numbers). -/
inductive NTInput where
  | vNull
  | vStr (s : String)
  | vNum (n : Int)

/-- The JS coercion `String(s || "")`: falsy values (`null`, `""`, `0`)
become `""`, other values their decimal / identity string. -/
def jsStringOrEmpty : NTInput → String
  | .vNull => ""
  | .vStr s => s
  | .vNum n => if n = 0 then "" else Int.repr n

def normalizeText (v : NTInput) : String := normalizeTextStr (jsStringOrEmpty v)

/-- `String.prototype.split` with a single-character separator (kernel-friendly
List model; `"".split(" ")` is `[""]`, matching JS). -/
def splitOnChar (sep : Char) : List Char → List (List Char)
  | [] => [[]]
  | c :: r =>
    let rest := splitOnChar sep r
    if c = sep then [] :: rest
    else
      match rest with
      | [] => [[c]]
      | t :: ts => (c :: t) :: ts

def splitWords (s : String) : List String :=
  (splitOnChar ' ' s.data).map String.mk

/-- `tokenize` (ask.js lines 30–32): split the normalized text on spaces and
drop empty tokens. -/
def tokenize (s : String) : List String :=
  (splitWords (normalizeTextStr s)).filter (fun t => t ≠ "")

example : normalizeTextStr "  Hello,   WORLD!! " = "hello world" := by decide
example : normalizeTextStr "who teaches OS" = "who teaches os" := by decide
example : tokenize "who teaches OS?" = ["who", "teaches", "os"] := by decide
example : normalizeTextStr "" = "" := by rfl

/-! ## The canonical form produced by `normalizeText`

A normalized string consists of lower-case word characters and single
ASCII spaces, with no leading or trailing space.  `normalizeText` always
produces such a string, and fixes every such string — hence it is
idempotent. -/

/-- A character that can appear in normalized output: a word character that
is not an upper-case letter, or the ASCII space. -/
def isNormalChar (c : Char) : Bool :=
  (isWordChar c && !(65 ≤ c.toNat && c.toNat ≤ 90)) || c.toNat == 32

def noTwoSpaces : List Char → Bool
  | a :: b :: t => !(a.toNat == 32 && b.toNat == 32) && noTwoSpaces (b :: t)
  | _ => true

def noLeadSpace : List Char → Bool
  | [] => true
  | c :: _ => !(c.toNat == 32)

def noTrailSpace : List Char → Bool
  | [] => true
  | [c] => !(c.toNat == 32)
  | _ :: t => noTrailSpace t

def isNormalized (l : List Char) : Bool :=
  l.all isNormalChar && noTwoSpaces l && noLeadSpace l && noTrailSpace l

/-- Class of characters coming out of the lower-case + punctuation-replace
passes: non-upper word characters or whitespace. -/
def isPreSpaceChar (c : Char) : Bool :=
  (isWordChar c && !(65 ≤ c.toNat && c.toNat ≤ 90)) || isJsSpace c

theorem jsToLower_not_upper (c : Char) :
    ¬(65 ≤ (jsToLower c).toNat ∧ (jsToLower c).toNat ≤ 90) := by
  by_cases h : 65 ≤ c.toNat ∧ c.toNat ≤ 90
  · rw [toNat_jsToLower_of_upper h]
    omega
  · rw [jsToLower_eq_self_of_not_upper h]
    exact h

theorem preSpace_replBad_jsToLower (c : Char) :
    isPreSpaceChar (replBad (jsToLower c)) = true := by
  have hnu := jsToLower_not_upper c
  unfold replBad
  split
  · next hk =>
      simp only [Bool.or_eq_true, Bool.and_eq_true] at hk
      rcases hk with hw | hs
      · simp only [isPreSpaceChar, Bool.or_eq_true, Bool.and_eq_true]
        left
        refine ⟨hw, ?_⟩
        simp only [Bool.not_eq_eq_eq_not, Bool.not_true, Bool.and_eq_false_iff]
        by_cases h65 : 65 ≤ (jsToLower c).toNat
        · right
          simp only [decide_eq_false_iff_not]
          omega
        · left
          simp only [decide_eq_false_iff_not]
          omega
      · simp [isPreSpaceChar, hs]
  · simp [isPreSpaceChar, isJsSpace]

theorem normalChar_of_pre_not_space {c : Char} (h : isPreSpaceChar c = true)
    (hs : isJsSpace c = false) : isNormalChar c = true := by
  simp only [isPreSpaceChar, Bool.or_eq_true] at h
  rcases h with h | h
  · simp only [isNormalChar, Bool.or_eq_true]
    exact Or.inl h
  · rw [h] at hs
    cases hs

theorem normalChar_space_eq_32 {c : Char} (hn : isNormalChar c = true)
    (hs : isJsSpace c = true) : c.toNat = 32 := by
  simp only [isNormalChar, isWordChar, Bool.or_eq_true, Bool.and_eq_true,
    beq_iff_eq, Bool.not_eq_eq_eq_not, Bool.not_true, Bool.and_eq_false_iff,
    decide_eq_true_eq, decide_eq_false_iff_not] at hn
  simp only [isJsSpace, Bool.or_eq_true, beq_iff_eq] at hs
  omega

theorem normalChar_not_space_of_ne_32 {c : Char} (hn : isNormalChar c = true)
    (h32 : ¬c.toNat = 32) : isJsSpace c = false := by
  by_cases hs : isJsSpace c = true
  · exact absurd (normalChar_space_eq_32 hn hs) h32
  · simpa using hs

/-- Elements of the collapsed list: the space character, or a non-whitespace
element of the input. -/
theorem mem_collapseAux {c : Char} :
    ∀ (l : List Char) (b : Bool), c ∈ collapseAux b l →
      c.toNat = 32 ∨ (c ∈ l ∧ isJsSpace c = false) := by
  intro l
  induction l with
  | nil =>
    intro b h
    cases b with
    | false => cases h
    | true =>
      simp only [collapseAux, List.mem_singleton] at h
      subst h
      left; rfl
  | cons d r ih =>
    intro b h
    cases b with
    | false =>
      simp only [collapseAux] at h
      split at h
      · rcases ih true h with h32 | ⟨hm, hs⟩
        · exact Or.inl h32
        · exact Or.inr ⟨List.mem_cons_of_mem _ hm, hs⟩
      · next hd =>
          rcases List.mem_cons.mp h with rfl | hm
          · exact Or.inr ⟨List.mem_cons_self _ _, by simpa using hd⟩
          · rcases ih false hm with h32 | ⟨hm2, hs⟩
            · exact Or.inl h32
            · exact Or.inr ⟨List.mem_cons_of_mem _ hm2, hs⟩
    | true =>
      simp only [collapseAux] at h
      split at h
      · rcases ih true h with h32 | ⟨hm, hs⟩
        · exact Or.inl h32
        · exact Or.inr ⟨List.mem_cons_of_mem _ hm, hs⟩
      · next hd =>
          rcases List.mem_cons.mp h with rfl | h2
          · left; rfl
          · rcases List.mem_cons.mp h2 with rfl | hm
            · exact Or.inr ⟨List.mem_cons_self _ _, by simpa using hd⟩
            · rcases ih false hm with h32 | ⟨hm2, hs⟩
              · exact Or.inl h32
              · exact Or.inr ⟨List.mem_cons_of_mem _ hm2, hs⟩

theorem noTwoSpaces_cons {c : Char} {l : List Char} (hc : ¬c.toNat = 32)
    (hl : noTwoSpaces l = true) : noTwoSpaces (c :: l) = true := by
  cases l with
  | nil => rfl
  | cons d t =>
    simp only [noTwoSpaces, Bool.and_eq_true, Bool.not_eq_eq_eq_not, Bool.not_true,
      Bool.and_eq_false_iff, beq_eq_false_iff_ne, ne_eq]
    exact ⟨Or.inl hc, hl⟩

theorem noTwoSpaces_cons_of_snd {a b : Char} {t : List Char} (hb : ¬b.toNat = 32)
    (h : noTwoSpaces (b :: t) = true) : noTwoSpaces (a :: b :: t) = true := by
  simp only [noTwoSpaces, Bool.and_eq_true, Bool.not_eq_eq_eq_not, Bool.not_true,
    Bool.and_eq_false_iff, beq_eq_false_iff_ne, ne_eq]
  exact ⟨Or.inr hb, h⟩

theorem noTwoSpaces_tail {c : Char} {l : List Char}
    (h : noTwoSpaces (c :: l) = true) : noTwoSpaces l = true := by
  cases l with
  | nil => rfl
  | cons d t =>
    simp only [noTwoSpaces, Bool.and_eq_true] at h
    exact h.2

theorem noTwoSpaces_collapseAux :
    ∀ (l : List Char) (b : Bool), noTwoSpaces (collapseAux b l) = true := by
  intro l
  induction l with
  | nil =>
    intro b
    cases b <;> rfl
  | cons c r ih =>
    intro b
    cases b with
    | false =>
      simp only [collapseAux]
      split
      · exact ih true
      · next hd =>
          refine noTwoSpaces_cons ?_ (ih false)
          have hcs : isJsSpace c = false := by simpa using hd
          intro h32
          simp [isJsSpace, h32] at hcs
    | true =>
      simp only [collapseAux]
      split
      · exact ih true
      · next hd =>
          have hcs : isJsSpace c = false := by simpa using hd
          have hc32 : ¬c.toNat = 32 := by
            intro h32
            simp [isJsSpace, h32] at hcs
          exact noTwoSpaces_cons_of_snd hc32 (noTwoSpaces_cons hc32 (ih false))

theorem trimRight_cons_nil {c : Char} {t : List Char} (h : trimRight t = []) :
    trimRight (c :: t) = if isJsSpace c = true then [] else [c] := by
  show (match trimRight t with
    | [] => if isJsSpace c = true then [] else [c]
    | r => c :: r) = _
  rw [h]

theorem trimRight_cons_cons {c x : Char} {t xs : List Char} (h : trimRight t = x :: xs) :
    trimRight (c :: t) = c :: x :: xs := by
  show (match trimRight t with
    | [] => if isJsSpace c = true then [] else [c]
    | r => c :: r) = _
  rw [h]

theorem trimRight_sublist : ∀ l : List Char, (trimRight l).Sublist l := by
  intro l
  induction l with
  | nil => exact List.Sublist.refl _
  | cons c t ih =>
    cases h : trimRight t with
    | nil =>
      rw [trimRight_cons_nil h]
      by_cases hc : isJsSpace c = true
      · rw [if_pos hc]; exact List.nil_sublist _
      · rw [if_neg hc]; exact List.cons_sublist_cons.mpr (List.nil_sublist _)
    | cons x xs =>
      rw [trimRight_cons_cons h]
      rw [h] at ih
      exact List.cons_sublist_cons.mpr ih

theorem trimRight_isPrefix : ∀ l : List Char, ∃ t, l = trimRight l ++ t := by
  intro l
  induction l with
  | nil => exact ⟨[], rfl⟩
  | cons c t ih =>
    cases h : trimRight t with
    | nil =>
      rcases ih with ⟨t2, ht2⟩
      rw [h] at ht2
      rw [trimRight_cons_nil h]
      by_cases hc : isJsSpace c = true
      · rw [if_pos hc]; exact ⟨c :: t, rfl⟩
      · rw [if_neg hc]; exact ⟨t2, by simpa using ht2⟩
    | cons x xs =>
      rcases ih with ⟨t2, ht2⟩
      rw [h] at ht2
      rw [trimRight_cons_cons h]
      exact ⟨t2, by simpa using ht2⟩

theorem noTrailSpace_trimRight : ∀ l : List Char, noTrailSpace (trimRight l) = true := by
  intro l
  induction l with
  | nil => rfl
  | cons c t ih =>
    cases h : trimRight t with
    | nil =>
      rw [trimRight_cons_nil h]
      by_cases hc : isJsSpace c = true
      · rw [if_pos hc]; rfl
      · rw [if_neg hc]
        simp only [noTrailSpace, Bool.not_eq_eq_eq_not, Bool.not_true, beq_eq_false_iff_ne,
          ne_eq]
        intro h32
        simp [isJsSpace, h32] at hc
    | cons x xs =>
      rw [trimRight_cons_cons h]
      rw [h] at ih
      simpa only [noTrailSpace] using ih

theorem trimRight_head : ∀ (c : Char) (t : List Char),
    trimRight (c :: t) = [] ∨ ∃ r, trimRight (c :: t) = c :: r := by
  intro c t
  cases h : trimRight t with
  | nil =>
    rw [trimRight_cons_nil h]
    by_cases hc : isJsSpace c = true
    · rw [if_pos hc]; exact Or.inl rfl
    · rw [if_neg hc]; exact Or.inr ⟨[], rfl⟩
  | cons x xs =>
    rw [trimRight_cons_cons h]
    exact Or.inr ⟨x :: xs, rfl⟩

theorem dropWhile_head_not {p : Char → Bool} :
    ∀ l : List Char, (∀ c t, l.dropWhile p = c :: t → p c = false) := by
  intro l
  induction l with
  | nil =>
    intro c t h
    cases h
  | cons a r ih =>
    intro c t h
    rw [List.dropWhile_cons] at h
    split at h
    · exact ih c t h
    · next ha =>
        cases h
        simpa using ha

theorem noTwoSpaces_append_right :
    ∀ (a b : List Char), noTwoSpaces (a ++ b) = true → noTwoSpaces b = true := by
  intro a
  induction a with
  | nil => intro b h; exact h
  | cons x xs ih =>
    intro b h
    exact ih b (noTwoSpaces_tail h)

theorem noTwoSpaces_append_left :
    ∀ (a b : List Char), noTwoSpaces (a ++ b) = true → noTwoSpaces a = true := by
  intro a
  induction a with
  | nil => intro b h; rfl
  | cons x xs ih =>
    intro b h
    cases xs with
    | nil => rfl
    | cons y ys =>
      simp only [List.cons_append, noTwoSpaces, Bool.and_eq_true] at h ⊢
      refine ⟨h.1, ?_⟩
      exact ih b h.2

theorem noTwoSpaces_of_suffix {a b : List Char} (h : a <:+ b)
    (hb : noTwoSpaces b = true) : noTwoSpaces a = true := by
  rcases h with ⟨t, ht⟩
  subst ht
  exact noTwoSpaces_append_right t a hb

/-- All output characters of `normList` are normal-form characters. -/
theorem all_normalChar_normList (l : List Char) :
    ∀ c ∈ normList l, isNormalChar c = true := by
  intro c hc
  unfold normList jsTrimList at hc
  have h1 : c ∈ collapseSpaces (l.map fun c => replBad (jsToLower c)) := by
    have hsub : (trimRight ((collapseSpaces (l.map fun c => replBad (jsToLower c))).dropWhile
        isJsSpace)).Sublist (collapseSpaces (l.map fun c => replBad (jsToLower c))) :=
      (trimRight_sublist _).trans (List.dropWhile_sublist _)
    exact hsub.mem hc
  rcases mem_collapseAux _ _ h1 with h32 | ⟨hm, hs⟩
  · simp [isNormalChar, h32]
  · rcases List.mem_map.mp hm with ⟨d, _, hd⟩
    subst hd
    exact normalChar_of_pre_not_space (preSpace_replBad_jsToLower d) hs

theorem noTwoSpaces_normList (l : List Char) : noTwoSpaces (normList l) = true := by
  unfold normList jsTrimList
  rcases trimRight_isPrefix ((collapseSpaces (l.map fun c => replBad (jsToLower c))).dropWhile
    isJsSpace) with ⟨t, ht⟩
  refine noTwoSpaces_append_left _ t ?_
  rw [← ht]
  exact noTwoSpaces_of_suffix (List.dropWhile_suffix _) (noTwoSpaces_collapseAux _ _)

theorem noLeadSpace_normList (l : List Char) : noLeadSpace (normList l) = true := by
  unfold normList jsTrimList
  cases hd : (collapseSpaces (l.map fun c => replBad (jsToLower c))).dropWhile isJsSpace with
  | nil => rfl
  | cons c t =>
    have hc : isJsSpace c = false := dropWhile_head_not _ c t hd
    rcases trimRight_head c t with h | ⟨r, h⟩
    · rw [h]; rfl
    · rw [h]
      simp only [noLeadSpace, Bool.not_eq_eq_eq_not, Bool.not_true, beq_eq_false_iff_ne, ne_eq]
      intro h32
      simp [isJsSpace, h32] at hc

theorem noTrailSpace_normList (l : List Char) : noTrailSpace (normList l) = true := by
  unfold normList jsTrimList
  exact noTrailSpace_trimRight _

/-- Direction (a) of the canonical-form argument: `normalizeText` output is
always in normal form. -/
theorem isNormalized_normList (l : List Char) : isNormalized (normList l) = true := by
  simp only [isNormalized, Bool.and_eq_true, List.all_eq_true]
  exact ⟨⟨⟨fun c hc => all_normalChar_normList l c hc, noTwoSpaces_normList l⟩,
    noLeadSpace_normList l⟩, noTrailSpace_normList l⟩

theorem replBad_jsToLower_fix {c : Char} (h : isNormalChar c = true) :
    replBad (jsToLower c) = c := by
  simp only [isNormalChar, Bool.or_eq_true, Bool.and_eq_true, beq_iff_eq] at h
  rcases h with ⟨hw, hu⟩ | h32
  · have hu2 : ¬(65 ≤ c.toNat ∧ c.toNat ≤ 90) := by
      simp only [Bool.not_eq_eq_eq_not, Bool.not_true, Bool.and_eq_false_iff,
        decide_eq_false_iff_not] at hu
      omega
    rw [jsToLower_eq_self_of_not_upper hu2]
    simp [replBad, hw]
  · have hc : c = ' ' := charEq_of_toNat (by simpa using h32)
    subst hc
    rfl

theorem collapse_fix :
    ∀ (n : Nat) (l : List Char), l.length ≤ n → noTwoSpaces l = true →
      (∀ c ∈ l, isNormalChar c = true) → collapseAux false l = l := by
  intro n
  induction n with
  | zero =>
    intro l hlen _ _
    have : l = [] := List.eq_nil_of_length_eq_zero (Nat.le_zero.mp hlen)
    subst this
    rfl
  | succ n ih =>
    intro l hlen hnts hall
    cases l with
    | nil => rfl
    | cons c r =>
      by_cases hsp : isJsSpace c = true
      · have hc32 : c.toNat = 32 := normalChar_space_eq_32 (hall c (List.mem_cons_self _ _)) hsp
        have hc : c = ' ' := charEq_of_toNat (by simpa using hc32)
        subst hc
        show collapseAux true r = ' ' :: r
        cases r with
        | nil => rfl
        | cons d r2 =>
          have hd32 : ¬d.toNat = 32 := by
            simp only [noTwoSpaces, Bool.and_eq_true, Bool.not_eq_eq_eq_not, Bool.not_true,
              Bool.and_eq_false_iff, beq_eq_false_iff_ne, ne_eq] at hnts
            rcases hnts.1 with h | h
            · exact absurd rfl h
            · exact h
          have hds : isJsSpace d = false :=
            normalChar_not_space_of_ne_32
              (hall d (List.mem_cons_of_mem _ (List.mem_cons_self _ _))) hd32
          show (if isJsSpace d = true then collapseAux true r2
            else ' ' :: d :: collapseAux false r2) = ' ' :: d :: r2
          rw [hds]
          simp only [Bool.false_eq_true, if_false]
          congr 1
          congr 1
          refine ih r2 (by simp only [List.length_cons] at hlen; omega) ?_ ?_
          · exact noTwoSpaces_tail (noTwoSpaces_tail hnts)
          · intro x hx
            exact hall x (List.mem_cons_of_mem _ (List.mem_cons_of_mem _ hx))
      · show (if isJsSpace c = true then collapseAux true r else c :: collapseAux false r) = c :: r
        rw [if_neg hsp]
        congr 1
        refine ih r (Nat.le_of_succ_le_succ hlen) (noTwoSpaces_tail hnts) ?_
        intro x hx
        exact hall x (List.mem_cons_of_mem _ hx)

theorem dropWhile_fix {p : Char → Bool} :
    ∀ l : List Char, (∀ c t, l = c :: t → p c = false) → l.dropWhile p = l := by
  intro l h
  cases l with
  | nil => rfl
  | cons c t =>
    rw [List.dropWhile_cons, h c t rfl]
    simp

theorem trimRight_fix :
    ∀ l : List Char, noTrailSpace l = true → (∀ c ∈ l, isNormalChar c = true) →
      trimRight l = l := by
  intro l
  induction l with
  | nil => intro _ _; rfl
  | cons c t ih =>
    intro hts hall
    cases t with
    | nil =>
      have hc32 : ¬c.toNat = 32 := by
        simp only [noTrailSpace, Bool.not_eq_eq_eq_not, Bool.not_true,
          beq_eq_false_iff_ne, ne_eq] at hts
        exact hts
      have hcs : isJsSpace c = false :=
        normalChar_not_space_of_ne_32 (hall c (List.mem_cons_self _ _)) hc32
      rw [trimRight_cons_nil (show trimRight ([] : List Char) = [] from rfl), hcs]
      simp
    | cons d t2 =>
      have ht : trimRight (d :: t2) = d :: t2 := by
        refine ih ?_ ?_
        · simpa only [noTrailSpace] using hts
        · intro x hx
          exact hall x (List.mem_cons_of_mem _ hx)
      rw [trimRight_cons_cons ht]

/-- Direction (b): `normalizeText` fixes every normal-form string. -/
theorem normList_fix {l : List Char} (h : isNormalized l = true) : normList l = l := by
  simp only [isNormalized, Bool.and_eq_true, List.all_eq_true] at h
  obtain ⟨⟨⟨hall, hnts⟩, hlead⟩, htrail⟩ := h
  unfold normList jsTrimList
  have hmap : l.map (fun c => replBad (jsToLower c)) = l := by
    have : l.map (fun c => replBad (jsToLower c)) = l.map id := by
      refine List.map_congr_left ?_
      intro a ha
      exact replBad_jsToLower_fix (hall a ha)
    rw [this, List.map_id]
  rw [hmap]
  have hcol : collapseSpaces l = l := collapse_fix l.length l (Nat.le_refl _) hnts hall
  rw [hcol]
  have hdrop : l.dropWhile isJsSpace = l := by
    refine dropWhile_fix l ?_
    intro c t hct
    subst hct
    simp only [noLeadSpace, Bool.not_eq_eq_eq_not, Bool.not_true,
      beq_eq_false_iff_ne, ne_eq] at hlead
    exact normalChar_not_space_of_ne_32 (hall c (List.mem_cons_self _ _)) hlead
  rw [hdrop]
  exact trimRight_fix l htrail hall

/-- `normalizeText` on strings is idempotent. -/
theorem normalizeTextStr_idem (s : String) :
    normalizeTextStr (normalizeTextStr s) = normalizeTextStr s := by
  show String.mk (normList (String.mk (normList s.data)).data) = String.mk (normList s.data)
  have hd : (String.mk (normList s.data)).data = normList s.data := rfl
  rw [hd, normList_fix (isNormalized_normList s.data)]

/-! ## `levenshtein` (ask.js lines 33–51)

The two-row dynamic program of the source, translated row by row:
`v0` is the previous row, and each character `a[i]` produces the next row
`v1` with `v1[0] = i + 1` and
`v1[j+1] = min(v1[j] + 1, v0[j+1] + 1, v0[j] + cost)`. -/

def levRowGo (ai : Char) : List Char → Nat → List Nat → List Nat
  | [], _, _ => []
  | _ :: _, _, [] => []
  | bj :: brest, v1j, v0j :: v0rest =>
    let up := v0rest.headD 0
    let cost : Nat := if ai = bj then 0 else 1
    let x := Nat.min (Nat.min (v1j + 1) (up + 1)) (v0j + cost)
    x :: levRowGo ai brest x v0rest

def levMain (bs : List Char) : List Char → Nat → List Nat → List Nat
  | [], _, v0 => v0
  | ai :: arest, i, v0 => levMain bs arest (i + 1) ((i + 1) :: levRowGo ai bs (i + 1) v0)

def levenshtein (a b : String) : Nat :=
  let n := a.data.length
  let m := b.data.length
  if n = 0 then m
  else if m = 0 then n
  else (levMain b.data a.data 0 (List.range (m + 1))).getLastD 0

example : levenshtein "kitten" "sitting" = 3 := by decide
example : levenshtein "who" "rao" = 2 := by decide
example : levenshtein "manwade" "manwade" = 0 := by decide
example : levenshtein "manwad" "manwade" = 1 := by decide

/-! ## `parseCourses` (ask.js lines 164–174)

```js
function parseCourses(row) {
  if (!row) return [];
  try {
    if (Array.isArray(row)) return row.map((c) => normalizeText(String(c)));
    if (typeof row === "string") {
      const parsed = JSON.parse(row);
      if (Array.isArray(parsed)) return parsed.map((c) => normalizeText(String(c)));
    }
  } catch (e) {}
  return String(row || "").split(/,|;|\|/).map((s) => normalizeText(s)).filter(Boolean);
}
```

The possible shapes of the field are embedded in `CField`; array elements
are represented by their `String(·)` coercion.  `JSON.parse` is an oracle
parameter `jp`: it can throw (`jthrow`), return an array of values — again
represented by their string coercions — (`jarr`), or return any non-array
value (`jother`). -/

inductive CField where
  | cNull
  | cArr (elems : List String)
  | cStr (s : String)
  | cOther (coerced : String)
  deriving DecidableEq

inductive JParse where
  | jthrow
  | jarr (elems : List String)
  | jother
  deriving DecidableEq

/-- JS truthiness of a `CField` value: `null`/`undefined`, `""` and `0` are
falsy; arrays (even empty) and other objects are truthy. -/
def cTruthy : CField → Bool
  | .cNull => false
  | .cArr _ => true
  | .cStr s => s ≠ ""
  | .cOther _ => true

/-- The `String(row || "")` coercion on a truthy field. -/
def cCoerce : CField → String
  | .cNull => ""
  | .cArr _ => ""
  | .cStr s => s
  | .cOther s => s

def isCourseDelim (c : Char) : Bool := c == ',' || c == ';' || c == '|'

/-- `String(row).split(/,|;|\|/)` — split on any single delimiter char. -/
def splitDelims (s : String) : List String :=
  ((s.data.splitOnP isCourseDelim).map String.mk)

def courseFallback (s : String) : List String :=
  ((splitDelims s).map normalizeTextStr).filter (fun x => x ≠ "")

def parseCourses (jp : String → JParse) (row : CField) : List String :=
  if cTruthy row = false then []
  else
    match row with
    | .cArr elems => elems.map normalizeTextStr
    | .cStr s =>
      match jp s with
      | .jarr elems => elems.map normalizeTextStr
      | _ => courseFallback s
    | _ => courseFallback (cCoerce row)

/-- JS `||` on strings (empty string is falsy). -/
def jsOr (a b : String) : String := if a = "" then b else a

/-- JS `||` on course-field values. -/
def cOr (a b : CField) : CField := if cTruthy a then a else b

/-! ## Substring test (`String.prototype.includes`) -/

def isPrefixL : List Char → List Char → Bool
  | [], _ => true
  | _ :: _, [] => false
  | a :: as2, b :: bs => a == b && isPrefixL as2 bs

def containsSub : List Char → List Char → Bool
  | hay, needle =>
    isPrefixL needle hay ||
      match hay with
      | [] => false
      | _ :: t => containsSub t needle

/-- `hay.includes(needle)`. -/
def jsIncludes (hay needle : String) : Bool := containsSub hay.data needle.data

example : jsIncludes "computer science" "science" = true := by decide
example : jsIncludes "csex" "cse" = true := by decide
example : jsIncludes "abc" "" = true := by decide
example : jsIncludes "" "a" = false := by decide

/-! ## Database rows and the person scorer (ask.js lines 177–217)

A `Row` carries the fields the endpoint reads.  Absent fields are the
empty string (for text fields) or `CField.cNull` (for course lists) —
both are falsy, exactly as an absent JS property is. -/

structure Row where
  name : String
  designation : String
  department : String
  specialization : String
  qualifications : String
  notes : String
  email_official : String
  email : String
  email_other : String
  mobile : String
  courses_taught : CField
  courses : CField
  subjects : CField
  deriving DecidableEq

def emptyRow : Row :=
  ⟨"", "", "", "", "", "", "", "", "", "", .cNull, .cNull, .cNull⟩

/-- Name parts used by the scorer: the normalized name split on spaces with
empty parts dropped. -/
def namePartsOf (row : Row) : List String :=
  (splitWords (normalizeTextStr row.name)).filter (fun p => p ≠ "")

/-- One iteration of the scorer token loop.  The state is
(score so far, matched-token count).  Mirrors the `continue` structure of
the source: an exact name-part hit or a name-substring hit short-circuits;
the fuzzy name pass does not, so the field checks below still run. -/
def tokenStep (nameParts : List String) (name dept spec notes email mobile : String)
    (coursesArr : List String) (st : Nat × Nat) (t : String) : Nat × Nat :=
  if t = "" then st
  else if nameParts.contains t then (st.1 + 7, st.2 + 1)
  else if jsIncludes name t then (st.1 + 5, st.2 + 1)
  else
    let st1 := if nameParts.any (fun np =>
        levenshtein t np ≤ (if np.length ≤ 3 then 1 else 2)) then (st.1 + 5, st.2 + 1) else st
    let st2 := if jsIncludes dept t then (st1.1 + 3, st1.2 + 1) else st1
    let st3 := if jsIncludes spec t then (st2.1 + 2, st2.2 + 1) else st2
    let st4 := if coursesArr.any (fun c => jsIncludes c t) then (st3.1 + 4, st3.2 + 1) else st3
    let st5 := if jsIncludes notes t then (st4.1 + 1, st4.2 + 1) else st4
    let st6 := if jsIncludes email t then (st5.1 + 2, st5.2 + 1) else st5
    if jsIncludes mobile t then (st6.1 + 2, st6.2 + 1) else st6

/-- Coverage bonus (ask.js lines 213–215): `coverage >= 0.6` adds 2,
else `coverage >= 0.35` adds 1.  The comparisons `matched/len ≥ 0.6` and
`matched/len ≥ 0.35` are modelled exactly over the rationals
(`5*matched ≥ 3*len`, `20*matched ≥ 7*len`); for the integer operands the
code produces, the double-precision computation agrees with the rational
one, since every non-equal case is separated from the threshold by at
least `1/(20*len)`, far above the rounding error. -/
def coverageBonus (matched len : Nat) : Nat :=
  if len = 0 then 0
  else if 5 * matched ≥ 3 * len then 2
  else if 20 * matched ≥ 7 * len then 1
  else 0

def scorePersonRow (jp : String → JParse) (row : Row) (tokens : List String) : Nat :=
  let name := normalizeTextStr row.name
  let nameParts := namePartsOf row
  let dept := normalizeTextStr row.department
  let spec := normalizeTextStr (jsOr row.specialization row.qualifications)
  let notes := normalizeTextStr row.notes
  let email := normalizeTextStr (jsOr row.email_official (jsOr row.email row.email_other))
  let mobile := normalizeTextStr row.mobile
  let coursesArr := parseCourses jp (cOr row.courses_taught (cOr row.courses row.subjects))
  let res := tokens.foldl (tokenStep nameParts name dept spec notes email mobile coursesArr)
    (0, 0)
  res.1 + coverageBonus res.2 tokens.length

/-- A `JSON.parse` oracle for concrete runs whose course fields are native
arrays (the parser is then never consulted). -/
def jpNone : String → JParse := fun _ => .jthrow

theorem coverageBonus_le_two (matched len : Nat) : coverageBonus matched len ≤ 2 := by
  unfold coverageBonus
  split
  · omega
  · split
    · omega
    · split <;> omega

/-- A token equal to a name part takes the first scoring branch: +7 points
and one more matched token. -/
theorem tokenStep_namePart {nameParts : List String} {t : String}
    (ht : t ∈ nameParts) (hne : t ≠ "")
    (name dept spec notes email mobile : String) (coursesArr : List String)
    (st : Nat × Nat) :
    tokenStep nameParts name dept spec notes email mobile coursesArr st t =
      (st.1 + 7, st.2 + 1) := by
  unfold tokenStep
  rw [if_neg hne]
  have hc : nameParts.contains t = true := List.elem_iff.mpr ht
  rw [if_pos hc]

theorem mem_nameParts_ne_empty {row : Row} {t : String} (h : t ∈ namePartsOf row) :
    t ≠ "" := by
  unfold namePartsOf at h
  have := List.of_mem_filter h
  simpa using this

/-- Appending a token that equals a name part adds exactly 7 base points and
one matched token. -/
theorem scorePersonRow_append_namePart (jp : String → JParse) (row : Row)
    (tokens : List String) {t : String} (ht : t ∈ namePartsOf row) :
    scorePersonRow jp row (tokens ++ [t]) ≥ scorePersonRow jp row tokens := by
  unfold scorePersonRow
  dsimp only
  rw [List.foldl_concat]
  rw [tokenStep_namePart ht (mem_nameParts_ne_empty ht)]
  have hb2 := coverageBonus_le_two
    (tokens.foldl (tokenStep (namePartsOf row) (normalizeTextStr row.name)
      (normalizeTextStr row.department)
      (normalizeTextStr (jsOr row.specialization row.qualifications))
      (normalizeTextStr row.notes)
      (normalizeTextStr (jsOr row.email_official (jsOr row.email row.email_other)))
      (normalizeTextStr row.mobile)
      (parseCourses jp (cOr row.courses_taught (cOr row.courses row.subjects)))) (0, 0)).2
    tokens.length
  omega

/-! ## Alias matching (ask.js lines 244–248)

```js
for (const [k, v] of Object.entries(aliasMap)) {
  const patt = new RegExp(`\\b${k.replace(/\s+/g,"\\s+")}\\b`, "i");
  if (patt.test(qNorm)) effectiveQuery = effectiveQuery.replace(patt, v);
}
```

Every key of the alias table consists of lower-case ASCII letters
separated by single spaces, so the compiled pattern is: word boundary,
then the key with each literal space standing for `\s+`, then a word
boundary, matched case-insensitively.  `matchKey` matches that pattern
against a prefix of the text (returning the number of characters
consumed; the run after a `\s+` is maximal, which is what the regex
backtracker settles on since the next pattern atom is a letter).
`findWW` scans left to right for the first position with a word
boundary on both sides, as `RegExp.prototype.test` / first-match
`replace` do. -/

def matchKey : List Char → List Char → Option Nat
  | [], _ => some 0
  | _ :: _, [] => none
  | k :: ks, c :: rest =>
    if k = ' ' then
      if isJsSpace c then
        let run := rest.takeWhile isJsSpace
        let restAfter := rest.dropWhile isJsSpace
        (matchKey ks restAfter).map (fun n => 1 + run.length + n)
      else none
    else if jsToLower c = k then (matchKey ks rest).map (fun n => n + 1)
    else none

def boundaryAfter (s : List Char) : Bool :=
  match s with
  | [] => true
  | c :: _ => !isWordChar c

/-- Attempt a whole-word match at the current position. `prevW` says whether
the character just before this position is a word character (no `\b` then). -/
def tryHere (key s : List Char) (prevW : Bool) (idx : Nat) : Option (Nat × Nat) :=
  if prevW then none
  else
    match matchKey key s with
    | some len => if boundaryAfter (s.drop len) then some (idx, len) else none
    | none => none

def findWWAux (key : List Char) : Bool → List Char → Nat → Option (Nat × Nat)
  | prevW, [], idx => tryHere key [] prevW idx
  | prevW, c :: rest, idx =>
    match tryHere key (c :: rest) prevW idx with
    | some r => some r
    | none => findWWAux key (isWordChar c) rest (idx + 1)

/-- First whole-word occurrence of the key pattern: (start index, length). -/
def findWW (key s : List Char) : Option (Nat × Nat) := findWWAux key false s 0

/-- `patt.test(s)` for the whole-word alias pattern of `k`. -/
def aliasTest (k s : String) : Bool := (findWW k.data s.data).isSome

/-- `s.replace(patt, v)` — replace the first whole-word match (if any). -/
def replaceFirst (k v s : String) : String :=
  match findWW k.data s.data with
  | some (i, len) => String.mk (s.data.take i ++ v.data ++ s.data.drop (i + len))
  | none => s

/-- One iteration of the alias loop: the pattern is tested against the fixed
normalized query, but the replacement is applied to the running
`effectiveQuery`. -/
def aliasStep (qNorm : String) (eff : String) (kv : String × String) : String :=
  if aliasTest kv.1 qNorm then replaceFirst kv.1 kv.2 eff else eff

/-- `aliasMap` of ask.js (lines 114–152), in object-literal order. -/
def askAliasList : List (String × String) :=
  [("hsit", "hirasugar institute of technology"),
   ("hsit nidasoshi", "hirasugar institute of technology nidasoshi"),
   ("hit", "hirasugar institute of technology"),
   ("hirasugar", "hirasugar institute of technology"),
   ("nidasoshi", "hirasugar institute of technology nidasoshi"),
   ("cse", "computer science and engineering"),
   ("computer science", "computer science and engineering"),
   ("ece", "electronics and communication engineering"),
   ("me", "mechanical engineering"),
   ("ce", "civil engineering"),
   ("eee", "electrical and electronics engineering"),
   ("rcb", "royal challengers bengaluru"),
   ("rcb owner", "royal challengers bengaluru owner"),
   ("mallikarjun", "prof. mallikarjun g. ganachari"),
   ("mallikarjun ganachari", "prof. mallikarjun g. ganachari"),
   ("mgganachari", "prof. mallikarjun g. ganachari"),
   ("sapna", "prof. sapna b patil"),
   ("sapna patil", "prof. sapna b patil"),
   ("kb manwade", "dr. k. b. manwade"),
   ("k b manwade", "dr. k. b. manwade"),
   ("kb manawade", "dr. k. b. manwade"),
   ("kb manwad", "dr. k. b. manwade"),
   ("manwade", "dr. k. b. manwade"),
   ("manjaragi", "dr. s. v. manjaragi"),
   ("s v manjaragi", "dr. s. v. manjaragi"),
   ("aruna daptardar", "mrs. aruna anil daptardar"),
   ("manoj chitale", "manojkumar a chitale"),
   ("shruti kumbar", "prof. shruti kumbar"),
   ("sujata mane", "ms. sujata ishwar mane"),
   ("os", "operating systems"),
   ("operating system", "operating systems"),
   ("ds", "data structures and applications"),
   ("dbms", "database management systems"),
   ("ml", "machine learning"),
   ("cloud", "cloud computing"),
   ("vlsi", "vlsi design"),
   ("embedded", "embedded systems")]

/-- Alias expansion of the raw query (ask.js lines 244–248). -/
def expandAliases (qRaw : String) : String :=
  let qNorm := normalizeTextStr qRaw
  askAliasList.foldl (aliasStep qNorm) qRaw

example : expandAliases "who teaches OS" = "who teaches operating systems" := by decide
example : expandAliases "cse" = "computer science and engineering" := by decide
example : expandAliases "computer science and engineering" =
    "computer science and engineering and engineering" := by decide
example : aliasTest "cse" (normalizeTextStr "who leads cseX") = false := by decide
example : aliasTest "cse" (normalizeTextStr "the cse dept") = true := by decide

/-! ## Whole-word soundness of the alias matcher (for the claim about
substring-of-a-longer-word false positives). -/

/-- Specification-side predicate: `key` occurs in `s` as a whole word —
literally, with a non-word character (or the string edge) on both sides. -/
def WholeWordIn (s key : List Char) : Prop :=
  ∃ pre post, s = pre ++ key ++ post ∧
    (pre = [] ∨ ∃ pre2 c, pre = pre2 ++ [c] ∧ isWordChar c = false) ∧
    (post = [] ∨ ∃ c post2, post = c :: post2 ∧ isWordChar c = false)

theorem jsToLower_fix_normal {c : Char} (h : isNormalChar c = true) : jsToLower c = c := by
  simp only [isNormalChar, Bool.or_eq_true, Bool.and_eq_true, beq_iff_eq] at h
  rcases h with ⟨_, hu⟩ | h32
  · apply jsToLower_eq_self_of_not_upper
    simp only [Bool.not_eq_eq_eq_not, Bool.not_true, Bool.and_eq_false_iff,
      decide_eq_false_iff_not] at hu
    omega
  · apply jsToLower_eq_self_of_not_upper
    omega

/-- On normalized text the alias pattern can only consume the key itself:
the matched segment is literally the key. -/
theorem matchKey_take :
    ∀ (key s : List Char), (∀ c ∈ s, isNormalChar c = true) → noTwoSpaces s = true →
      ∀ len, matchKey key s = some len → len = key.length ∧ s.take len = key := by
  intro key
  induction key with
  | nil =>
    intro s _ _ len h
    simp only [matchKey, Option.some.injEq] at h
    subst h
    exact ⟨rfl, rfl⟩
  | cons k ks ih =>
    intro s hall hnts len h
    cases s with
    | nil => cases h
    | cons c rest =>
      by_cases hk : k = ' '
      · subst hk
        simp only [matchKey, if_pos rfl] at h
        by_cases hcs : isJsSpace c = true
        · rw [if_pos hcs] at h
          have hc32 : c.toNat = 32 :=
            normalChar_space_eq_32 (hall c (List.mem_cons_self _ _)) hcs
          have hc : c = ' ' := charEq_of_toNat (by simpa using hc32)
          have hrun : rest.takeWhile isJsSpace = [] := by
            cases rest with
            | nil => rfl
            | cons d r2 =>
              have hd32 : ¬d.toNat = 32 := by
                simp only [noTwoSpaces, Bool.and_eq_true, Bool.not_eq_eq_eq_not, Bool.not_true,
                  Bool.and_eq_false_iff, beq_eq_false_iff_ne, ne_eq] at hnts
                rcases hnts.1 with hl | hr
                · exact absurd hc32 hl
                · exact hr
              have hds : isJsSpace d = false :=
                normalChar_not_space_of_ne_32
                  (hall d (List.mem_cons_of_mem _ (List.mem_cons_self _ _))) hd32
              simp [List.takeWhile_cons, hds]
          have hdrop : rest.dropWhile isJsSpace = rest := by
            refine dropWhile_fix rest ?_
            intro d t hdt
            subst hdt
            have : (d :: t).takeWhile isJsSpace = [] := hrun
            by_cases hds : isJsSpace d = true
            · rw [List.takeWhile_cons, if_pos hds] at this
              cases this
            · simpa using hds
          rw [hrun, hdrop] at h
          simp only [List.length_nil] at h
          cases hn : matchKey ks rest with
          | none =>
            rw [hn] at h
            exact Option.noConfusion h
          | some n =>
            rw [hn] at h
            have hlen2 : 1 + 0 + n = len := Option.some.inj h
            have hrest := ih rest
              (fun x hx => hall x (List.mem_cons_of_mem _ hx)) (noTwoSpaces_tail hnts) n hn
            constructor
            · simp only [List.length_cons]
              omega
            · have hy : len = n + 1 := by omega
              subst hy
              rw [List.take_succ_cons, hrest.2, hc]
        · rw [if_neg hcs] at h
          cases h
      · simp only [matchKey, if_neg hk] at h
        by_cases hcl : jsToLower c = k
        · rw [if_pos hcl] at h
          cases hn : matchKey ks rest with
          | none =>
            rw [hn] at h
            exact Option.noConfusion h
          | some n =>
            rw [hn] at h
            have hlen2 : n + 1 = len := Option.some.inj h
            have hc : c = k := by
              rw [← hcl]
              exact (jsToLower_fix_normal (hall c (List.mem_cons_self _ _))).symm
            have hrest := ih rest
              (fun x hx => hall x (List.mem_cons_of_mem _ hx)) (noTwoSpaces_tail hnts) n hn
            constructor
            · simp only [List.length_cons]
              omega
            · have hy : len = n + 1 := by omega
              subst hy
              rw [List.take_succ_cons, hrest.2, hc]
        · rw [if_neg hcl] at h
          cases h

theorem tryHere_sound {key s : List Char} {prevW : Bool} {idx : Nat} {r : Nat × Nat}
    (h : tryHere key s prevW idx = some r) :
    prevW = false ∧ ∃ len, matchKey key s = some len ∧ boundaryAfter (s.drop len) = true := by
  unfold tryHere at h
  by_cases hw : prevW = true
  · rw [if_pos hw] at h
    cases h
  · rw [if_neg hw] at h
    refine ⟨by simpa using hw, ?_⟩
    cases hm : matchKey key s with
    | none => rw [hm] at h; cases h
    | some len =>
      rw [hm] at h
      by_cases hb : boundaryAfter (s.drop len) = true
      · exact ⟨len, rfl, hb⟩
      · exfalso
        have h2 : (if boundaryAfter (s.drop len) = true then some (idx, len) else none) =
            some r := h
        rw [if_neg hb] at h2
        exact Option.noConfusion h2

theorem findWWAux_sound (key : List Char) :
    ∀ (s : List Char) (prevW : Bool) (idx : Nat) (r : Nat × Nat),
      findWWAux key prevW s idx = some r →
      ∃ pre rest, s = pre ++ rest ∧
        ((pre = [] ∧ prevW = false) ∨ (∃ pre2 c, pre = pre2 ++ [c] ∧ isWordChar c = false)) ∧
        ∃ len, matchKey key rest = some len ∧ boundaryAfter (rest.drop len) = true := by
  intro s
  induction s with
  | nil =>
    intro prevW idx r h
    obtain ⟨hw, hm⟩ := tryHere_sound h
    exact ⟨[], [], rfl, Or.inl ⟨rfl, hw⟩, hm⟩
  | cons c rest ih =>
    intro prevW idx r h
    simp only [findWWAux] at h
    cases ht : tryHere key (c :: rest) prevW idx with
    | some r2 =>
      obtain ⟨hw, hm⟩ := tryHere_sound ht
      exact ⟨[], c :: rest, rfl, Or.inl ⟨rfl, hw⟩, hm⟩
    | none =>
      rw [ht] at h
      obtain ⟨pre1, rest1, heq, hflag, hm⟩ := ih (isWordChar c) (idx + 1) r h
      refine ⟨c :: pre1, rest1, by simpa using heq, ?_, hm⟩
      rcases hflag with ⟨hp, hw⟩ | ⟨pre2, d, hp, hd⟩
      · subst hp
        exact Or.inr ⟨[], c, rfl, hw⟩
      · subst hp
        exact Or.inr ⟨c :: pre2, d, rfl, hd⟩

/-- Soundness of the whole-word alias test: on normalized text the pattern
fires only at a literal whole-word occurrence of the key. -/
theorem aliasTest_wholeWord {k q : String}
    (h : aliasTest k (normalizeTextStr q) = true) :
    WholeWordIn (normalizeTextStr q).data k.data := by
  unfold aliasTest findWW at h
  rw [Option.isSome_iff_exists] at h
  obtain ⟨r, hr⟩ := h
  obtain ⟨pre, rest, heq, hflag, len, hm, hb⟩ := findWWAux_sound _ _ _ _ _ hr
  have hnorm := isNormalized_normList q.data
  simp only [isNormalized, Bool.and_eq_true, List.all_eq_true] at hnorm
  have hdata : (normalizeTextStr q).data = normList q.data := rfl
  have hall : ∀ c ∈ rest, isNormalChar c = true := by
    intro c hc
    refine hnorm.1.1.1 c ?_
    rw [← hdata, heq]
    exact List.mem_append_right _ hc
  have hnts : noTwoSpaces rest = true := by
    refine noTwoSpaces_append_right pre rest ?_
    rw [← heq]
    exact hnorm.1.1.2
  obtain ⟨hlen, htake⟩ := matchKey_take k.data rest hall hnts len hm
  refine ⟨pre, rest.drop len, ?_, ?_, ?_⟩
  · rw [heq, List.append_assoc]
    congr 1
    rw [← htake]
    exact (List.take_append_drop len rest).symm
  · rcases hflag with ⟨hp, _⟩ | hp
    · exact Or.inl hp
    · exact Or.inr hp
  · unfold boundaryAfter at hb
    cases hd : rest.drop len with
    | nil => exact Or.inl rfl
    | cons c post2 =>
      rw [hd] at hb
      exact Or.inr ⟨c, post2, rfl, by simpa using hb⟩

/-! ## LLM fallback adapters (ask.js lines 54–111)

The network is an oracle: a `fetch` either rejects (`netErr`), answers with
a non-2xx status and body text (`httpErr`), answers 2xx with a body whose
`json()` parse throws (`okBadJson`), or answers 2xx with parsed JSON
(`okJson`).  Of a parsed Gemini response the adapter reads the two
optional-chain probes `candidates[0].content.parts[0].text` and
`output[0].content[0].text`; of an OpenAI response it reads
`choices[0].message.content`.  Each probe is embedded as the optional
string the chain would produce, `none` when any link is missing or null
(a present-but-empty string is falsy for `||` and is kept as `""`). -/

structure GemJson where
  candidatesText : Option String
  outputText : Option String
  deriving DecidableEq

structure OaJson where
  choicesContent : Option String
  deriving DecidableEq

inductive FetchOutcome (J : Type) where
  | netErr (msg : String)
  | httpErr (status : Nat) (text : String)
  | okBadJson (msg : String)
  | okJson (json : J)
  deriving DecidableEq

structure LlmResult where
  answer : String
  source : String
  deriving DecidableEq

/-- JS `a || b` where `a` is an optional-chain result: `undefined`/`null`
and `""` both fall through. -/
def jsOrOpt (a : Option String) (b : String) : String :=
  match a with
  | none => b
  | some s => if s = "" then b else s

/-- `callGemini` (ask.js lines 54–73).  `GEMINI_API_URL` always has a
default, so only the key can be missing. -/
def callGemini (apiKey : Option String) (fetch : FetchOutcome GemJson) : LlmResult :=
  match apiKey with
  | none => { answer := "LLM not configured.", source := "llm" }
  | some _ =>
    match fetch with
    | .netErr msg => { answer := "LLM exception: " ++ msg, source := "llm" }
    | .httpErr status text =>
      { answer := "LLM error " ++ Nat.repr status ++ ": " ++ text, source := "llm" }
    | .okBadJson msg => { answer := "LLM exception: " ++ msg, source := "llm" }
    | .okJson j =>
      { answer := jsOrOpt (match j.candidatesText with
          | some t => if t = "" then j.outputText else some t
          | none => j.outputText) "No answer from LLM.",
        source := "llm" }

/-- `callOpenAI` (ask.js lines 75–105). -/
def callOpenAI (apiKey : Option String) (fetch : FetchOutcome OaJson) : LlmResult :=
  match apiKey with
  | none => { answer := "OpenAI not configured.", source := "llm" }
  | some _ =>
    match fetch with
    | .netErr msg => { answer := "OpenAI exception: " ++ msg, source := "llm" }
    | .httpErr status text =>
      { answer := "OpenAI error " ++ Nat.repr status ++ ": " ++ text, source := "llm" }
    | .okBadJson msg => { answer := "OpenAI exception: " ++ msg, source := "llm" }
    | .okJson j => { answer := jsOrOpt j.choicesContent "No answer from OpenAI.", source := "llm" }

/-- `callAnyLLM` (ask.js lines 107–111): prefer OpenAI when its key is
configured, else Gemini. -/
def callAnyLLM (openaiKey geminiKey : Option String)
    (fetchO : FetchOutcome OaJson) (fetchG : FetchOutcome GemJson) : LlmResult :=
  match openaiKey with
  | some k => callOpenAI (some k) fetchO
  | none => callGemini geminiKey fetchG

/-! ### The part_004 revision's `callGemini` (src/unnamed/part_004 lines 21–45)

```js
async function callGemini(question) {
  const url = process.env.GEMINI_API_URL;
  const key = process.env.GEMINI_API_KEY;
  if (!url || !key) return `LLM not configured.`;
  const payload = { ... };
  const res = await fetch(url, { ... });
  if (!res.ok) {
    const txt = await res.text();
    return `LLM error: ${res.status} ${txt}`;
  }
  const j = await res.json();
  if (j.answer) return j.answer;
  if (j.choices?.[0]?.text) return j.choices[0].text;
  if (j.choices?.[0]?.message?.content) return j.choices[0].message.content;
  return JSON.stringify(j);
}
```

Unlike the ask.js adapters, there is no `try`/`catch` here: a rejected
`fetch` (network failure) or a rejecting `res.json()` (malformed body)
propagates to the caller, embedded as `Except.error`.  Every return value
is a bare string; the function attaches no `source` tag at all. -/

/-- Parsed JSON shape read by the part_004 adapter: the three probed paths
(each the value its optional chain would produce) and the
`JSON.stringify` of the whole body. -/
structure Pt4Json where
  answerField : Option String
  choicesText : Option String
  choicesMsgContent : Option String
  stringified : String
  deriving DecidableEq

/-- JS truthiness of an optional-chain string result. -/
def jsTruthyOpt : Option String → Bool
  | some s => s ≠ ""
  | none => false

def part004CallGemini (url apiKey : Option String) (fetch : FetchOutcome Pt4Json) :
    Except String String :=
  if url.isNone || apiKey.isNone then .ok "LLM not configured."
  else
    match fetch with
    | .netErr msg => .error msg
    | .httpErr status text => .ok ("LLM error: " ++ Nat.repr status ++ " " ++ text)
    | .okBadJson msg => .error msg
    | .okJson j =>
      if jsTruthyOpt j.answerField then .ok (j.answerField.getD "")
      else if jsTruthyOpt j.choicesText then .ok (j.choicesText.getD "")
      else if jsTruthyOpt j.choicesMsgContent then .ok (j.choicesMsgContent.getD "")
      else .ok j.stringified

/-! ## Intent detection and routing constants (ask.js lines 154–229, 252–258) -/

def COLLEGE_KEYS : List String :=
  ["college", "hsit", "hit", "hirasugar", "nidasoshi", "campus", "established",
   "affiliation", "website", "contact", "phone", "email"]

def FACULTY_KEYS : List String :=
  ["who", "teacher", "teaches", "hod", "prof", "professor", "assistant", "associate",
   "lecturer", "instructor", "faculty", "teach"]

def STAFF_KEYS : List String :=
  ["staff", "peon", "helper", "mechanic", "lab", "lab assistant", "lab instructor", "clerk"]

def PLACEMENTS_KEYS : List String :=
  ["placement", "placements", "company", "salary", "offer", "offers", "recruit"]

def SUBJECT_KEYS : List String :=
  ["subject", "subjects", "syllabus", "curriculum", "semester", "sem"]

def STUDENT_KEYS : List String :=
  ["student", "students", "usn", "roll", "name", "batch"]

def BRANCH_KEYS : List String :=
  ["branch", "branches", "cse", "ece", "me", "ce", "eee", "computer", "mechanical",
   "civil", "electronics"]

/-- `detectIntent` (ask.js lines 220–229): first keyword list with a
substring hit wins, in this order; default is "people". -/
def detectIntent (norm : String) : String :=
  if COLLEGE_KEYS.any (fun k => jsIncludes norm k) then "college"
  else if PLACEMENTS_KEYS.any (fun k => jsIncludes norm k) then "placements"
  else if SUBJECT_KEYS.any (fun k => jsIncludes norm k) then "subjects"
  else if STUDENT_KEYS.any (fun k => jsIncludes norm k) then "students"
  else if FACULTY_KEYS.any (fun k => jsIncludes norm k) then "people"
  else if STAFF_KEYS.any (fun k => jsIncludes norm k) then "people"
  else if BRANCH_KEYS.any (fun k => jsIncludes norm k) then "branches"
  else "people"

def GENERAL_ENTITIES : List String :=
  ["google", "gmail", "facebook", "twitter", "amazon", "microsoft", "elon", "musk",
   "sundar", "pichai", "modi", "narendra", "pm", "prime", "minister", "president",
   "owner", "owns", "owners", "who", "what", "when", "where", "why"]

/-- The regex `/^(who|what|when|where|why|how)\b/` applied to the normalized
query: one of the six words at the start, followed by the end of the string
or a non-word character. -/
def startsWithWH (s : String) : Bool :=
  ["who", "what", "when", "where", "why", "how"].any (fun w =>
    isPrefixL w.data s.data && boundaryAfter (s.data.drop w.length))

example : startsWithWH "who teaches os" = true := by decide
example : startsWithWH "whoever it is" = false := by decide
example : startsWithWH "cse hod" = false := by decide

def HINT_BRANCH_TOKENS : List String :=
  ["cse", "ece", "me", "ce", "eee", "computer", "electronics", "mechanical", "civil",
   "electrical"]

def askGreetings : List String := ["hi", "hello", "hey", "ok", "yo"]

/-! ## The handler (ask.js lines 232–464)

External collaborators live in `Env`: whether Supabase credentials are
configured, the outcome of each people-collection fetch (as a function of
the department hint that parametrizes the query), the `callAnyLLM` result
for a question, and the `JSON.parse` oracle.  The result records the
response sent plus whether the data store or the LLM provider was
contacted.  The `college`/`placements`/`subjects`/`students`/`branches`
branches are not exercised by any verified claim and are represented by an
opaque `unmodeledIntent` response whose contact flags are conservatively
`true`. -/

inductive Fetch where
  | rejected
  | fulfilled (data : Option (List Row))

structure TRow where
  row : Row
  table : String
  deriving DecidableEq

inductive AskResponse where
  | badRequest (msg : String)
  | resp (answer source : String) (route : Option String)
  | unmodeledIntent (intent : String)
  deriving DecidableEq

structure HandlerResult where
  response : AskResponse
  dbContacted : Bool
  llmContacted : Bool
  deriving DecidableEq

structure Env where
  supabaseConfigured : Bool
  fetchFaculty : Option String → Fetch
  fetchStaff : Option String → Fetch
  llm : String → LlmResult
  jp : String → JParse

def greetingText : String := "Hi 👋 How can I help you?"

def tagRows (table : String) : Fetch → List TRow
  | .fulfilled (some rows) => rows.map (fun r => ⟨r, table⟩)
  | _ => []

/-- Answer formatter of the confident people branch (ask.js lines 420–430). -/
def formatPersonRow (jp : String → JParse) (r : Row) : String :=
  let lines : List String :=
    [r.name ++ (if r.designation ≠ "" then " — " ++ r.designation else "")] ++
    (if r.department ≠ "" then ["Department: " ++ r.department] else []) ++
    (if r.specialization ≠ "" then ["Specialization: " ++ r.specialization] else []) ++
    (let courses := parseCourses jp (cOr r.courses_taught r.courses)
     if courses.length ≠ 0 then
       ["Courses: " ++ String.intercalate ", " (courses.take 6)] else []) ++
    (if jsOr r.email_official r.email ≠ "" then
       ["Email: " ++ jsOr r.email_official (jsOr r.email r.email_other)] else []) ++
    (if r.mobile ≠ "" then ["Phone: " ++ r.mobile] else []) ++
    (if r.notes ≠ "" then ["Notes: " ++ r.notes] else [])
  String.intercalate "\n" lines

/-- The regex `/(LLM not configured|No answer)/i` on the LLM answer; the
suggestion branches prefer the LLM answer only when it is truthy and does
not match this pattern. -/
def meaningfulLlm (a : String) : Bool :=
  a ≠ "" &&
    !(containsSub (a.data.map jsToLower) "llm not configured".data ||
      containsSub (a.data.map jsToLower) "no answer".data)

def suggestionLine (s : TRow × Nat) : String :=
  s.1.row.name ++ " (" ++ s.1.table ++ ") — score " ++ Nat.repr s.2

/-- Insert `x` before the first element whose score is at most `x`'s.
`sortScored` inserts each element into the sorted tail, so `x` is the
earliest element of the original list: placing it before equal scores
keeps the original order among ties. -/
def insertDesc (x : TRow × Nat) : List (TRow × Nat) → List (TRow × Nat)
  | [] => [x]
  | y :: ys => if y.2 ≤ x.2 then x :: y :: ys else y :: insertDesc x ys

/-- Sort of the scored rows: JS `sort((a,b) => b.score - a.score)` is a
stable descending sort, whose result is uniquely determined (pairs ordered
by score descending, original position ascending); a stable insertion
sort computes exactly that list. -/
def sortScored : List (TRow × Nat) → List (TRow × Nat)
  | [] => []
  | x :: xs => insertDesc x (sortScored xs)

def secondScoreOf : List (TRow × Nat) → Nat
  | _ :: s :: _ => s.2
  | _ => 0

/-- The confidence gate (ask.js line 419) with `THRESH = 6` and
`MIN_RATIO = 1.15`:
`best >= 6 && (second === 0 || best >= Math.max(6, second * 1.15))`.
The multiplication is modelled exactly over the rationals at scale 20
(`1.15 = 23/20`); for integer scores this agrees with the double-precision
computation (the double product of `second` and `fl(1.15)` is always below
`23*second/20` by less than the distance to the nearest integer on either
side). -/
def decisionGate (best second : Nat) : Bool :=
  decide (best ≥ 6) &&
    (decide (second = 0) || decide (20 * best ≥ max (20 * 6) (23 * second)))

/-- People branch of the handler (ask.js lines 392–453). -/
def handlePeople (jp : String → JParse) (llm : String → LlmResult)
    (facRes staffRes : Fetch) (tokens : List String) (effq : String) : HandlerResult :=
  let rows := tagRows "faculty_list" facRes ++ tagRows "staff" staffRes
  if rows.isEmpty then
    let l := llm effq
    ⟨.resp l.answer l.source (some "people-db-empty-fallback-llm"), true, true⟩
  else
    let scored := rows.map (fun r => (r, scorePersonRow jp r.row tokens))
    let sorted := sortScored scored
    let bestHit :=
      match sorted with
      | b :: rest => if decisionGate b.2 (secondScoreOf (b :: rest)) then some b else none
      | [] => none
    match bestHit with
    | some b =>
      let label := if b.1.table = "staff" then "supabase-staff" else "supabase-faculty"
      ⟨.resp (formatPersonRow jp b.1.row) label none, true, false⟩
    | none =>
      let suggestions := (sorted.take 8).filter (fun s => 0 < s.2)
      if suggestions.isEmpty then
        let l := llm effq
        if meaningfulLlm l.answer then
          ⟨.resp l.answer l.source (some "people-final-llm-fallback"), true, true⟩
        else ⟨.resp "No matching person found in DB." "db-empty" none, true, true⟩
      else
        let l := llm effq
        if meaningfulLlm l.answer then
          ⟨.resp l.answer l.source (some "people-suggestions-llm-preferred"), true, true⟩
        else
          ⟨.resp ("No single confident match. Top suggestions:\n" ++
            String.intercalate "\n" (suggestions.map suggestionLine))
            "supabase-suggestions" none, true, true⟩

/-- The `ask` handler (POST, body already parsed; ask.js lines 232–464). -/
def handler (env : Env) (question : String) : HandlerResult :=
  if jsTrim question = "" then ⟨.badRequest "question required", false, false⟩
  else
    let qRaw := jsTrim question
    let qNorm := normalizeTextStr qRaw
    if askGreetings.contains qNorm then ⟨.resp greetingText "generic" none, false, false⟩
    else
      let effq := askAliasList.foldl (aliasStep qNorm) qRaw
      let tokens := (tokenize effq).filter (fun t => t ≠ "")
      let hasGeneralEntity := tokens.any (fun t => GENERAL_ENTITIES.contains t)
      if startsWithWH qNorm && hasGeneralEntity then
        let l := env.llm effq
        ⟨.resp l.answer l.source (some "wh-general-heuristic"), false, true⟩
      else if env.supabaseConfigured = false then
        let l := env.llm effq
        ⟨.resp l.answer l.source (some "supabase not configured"), false, true⟩
      else
        let intent := detectIntent qNorm
        if intent = "people" then
          let hint := tokens.find? (fun t => HINT_BRANCH_TOKENS.contains t)
          handlePeople env.jp env.llm (env.fetchFaculty hint) (env.fetchStaff hint) tokens effq
        else ⟨.unmodeledIntent intent, true, true⟩

/-! ## The part_001 revision's greeting guard (src/unnamed/part_001
lines 104 and 251–254):

```js
const GREETINGS = new Set(["hi", "hello", "hey", "ok", "yo", "h", "hi!", "hello!"]);
...
if (GREETINGS.has(qNorm) || (qNorm.length <= 2 && qNorm.length >= 1)) {
  return res.json({ answer: "Hi 👋 How can I help you?", source: "generic" });
}
```
-/

def part001Greetings : List String := ["hi", "hello", "hey", "ok", "yo", "h", "hi!", "hello!"]

def part001GreetingGuard (qNorm : String) : Bool :=
  part001Greetings.contains qNorm ||
    (decide (qNorm.length ≤ 2) && decide (1 ≤ qNorm.length))

/-! ## Concrete fixtures used by the claim theorems -/

/-- The faculty record of the end-to-end example. -/
def raoRow : Row :=
  { emptyRow with
    name := "A. Rao", designation := "Assistant Professor",
    courses_taught := .cArr ["Operating Systems"] }

/-- Unique head-of-department record of the role-first-pass example. -/
def hodRowA : Row :=
  { emptyRow with
    name := "a sharma", designation := "Head of Department",
    department := "computer science and engineering" }

/-- Same-department non-HOD record with the higher token-overlap score. -/
def hodRowB : Row :=
  { emptyRow with
    name := "hod", designation := "Professor",
    department := "computer science and engineering" }

/-- Rows engineered to score 10, 9 and 4 against the tokens
`["operating", "systems"]`. -/
def tenRow : Row := { emptyRow with name := "t ten", courses_taught := .cArr ["operating systems"] }

def nineRow : Row :=
  { emptyRow with
    name := "t nine"
    courses_taught := .cArr ["operating"]
    department := "systems" }

def fourRow : Row := { emptyRow with name := "t four", department := "operating stuff" }

def llmConst : String → LlmResult := fun _ => ⟨"LLMANS", "llm"⟩

def envRao : Env :=
  { supabaseConfigured := true,
    fetchFaculty := fun _ => .fulfilled (some [raoRow]),
    fetchStaff := fun _ => .fulfilled (some []),
    llm := llmConst, jp := jpNone }

def envHod : Env :=
  { supabaseConfigured := true,
    fetchFaculty := fun _ => .fulfilled (some [hodRowA, hodRowB]),
    fetchStaff := fun _ => .fulfilled (some []),
    llm := llmConst, jp := jpNone }

def envNoDb : Env :=
  { supabaseConfigured := false,
    fetchFaculty := fun _ => .rejected,
    fetchStaff := fun _ => .rejected,
    llm := fun _ => ⟨"x", "llm"⟩, jp := jpNone }

/-! ## Claim C7 -/

/-- C7: text normalization is total and idempotent — for every input value
(`null`, strings, numbers coerced to string) `normalizeText` returns a
canonical string (lower-case word characters and single interior spaces,
trimmed), and applying it a second time returns the same string. -/
theorem C7_normalizeText_idempotent :
    ∀ v : NTInput,
      isNormalized (normalizeText v).data = true ∧
      normalizeText (NTInput.vStr (normalizeText v)) = normalizeText v := by
  intro v
  constructor
  · exact isNormalized_normList (jsStringOrEmpty v).data
  · exact normalizeTextStr_idem (jsStringOrEmpty v)

/-! ## Claim C8 -/

/-- C8: scoring monotonicity — appending a token that exactly equals one of
the record's name parts never decreases the record's score under
`scorePersonRow` (the +7 exact-name branch dominates any possible loss in
the coverage bonus, which is at most 2). -/
theorem C8_score_monotone :
    ∀ (jp : String → JParse) (row : Row) (tokens : List String) (t : String),
      t ∈ namePartsOf row →
      scorePersonRow jp row (tokens ++ [t]) ≥ scorePersonRow jp row tokens :=
  fun jp row tokens _ ht => scorePersonRow_append_namePart jp row tokens ht

/-- Witness for C8 at a concrete record and token. -/
theorem C8_score_monotone_witness :
    "rao" ∈ namePartsOf raoRow ∧
    scorePersonRow jpNone raoRow (["operating", "systems"] ++ ["rao"]) ≥
      scorePersonRow jpNone raoRow ["operating", "systems"] :=
  ⟨by decide, C8_score_monotone jpNone raoRow ["operating", "systems"] "rao" (by decide)⟩

/-! ## Claim C9 -/

/-- C9 counterexample: the claim also covers the `callGemini` of the
part_004 revision (cited in its sources), and that adapter has no
`try`/`catch` — a rejected `fetch` (network failure) and a rejecting
`res.json()` (malformed JSON) propagate as exceptions instead of being
converted into textual answers, so "never throws … in all cases" is false
of it.  (Its successful returns are also bare strings with no
`source: "llm"` tag, as its `Except String String` type shows.) -/
theorem C9_part004_throws_counterexample :
    part004CallGemini (some "https://gemini.example") (some "k")
      (.netErr "TypeError: fetch failed") = .error "TypeError: fetch failed" ∧
    part004CallGemini (some "https://gemini.example") (some "k")
      (.okBadJson "SyntaxError: Unexpected end of JSON input") =
      .error "SyntaxError: Unexpected end of JSON input" :=
  ⟨rfl, rfl⟩

/-- C9 amended: the ask.js adapters (`callGemini`, `callOpenAI`, wrapped
in try/catch) never throw and degrade gracefully — for every question and
every network outcome (missing credential, network rejection, non-2xx
status, malformed JSON, missing text paths) they return a textual
`answer` tagged `source = "llm"`, and with no credential configured a
fixed "not configured" message independent of (hence without consulting)
the network oracle.  The part_004 revision's `callGemini`, by contrast,
converts only the not-configured and non-2xx cases into text: a rejected
fetch or a malformed JSON body propagates as an exception, and its
returns are untagged bare strings. -/
theorem C9_llm_adapter_graceful :
    (∀ (k : Option String) (f : FetchOutcome GemJson), (callGemini k f).source = "llm") ∧
    (∀ (k : Option String) (f : FetchOutcome OaJson), (callOpenAI k f).source = "llm") ∧
    (∀ f : FetchOutcome GemJson, callGemini none f = ⟨"LLM not configured.", "llm"⟩) ∧
    (∀ f : FetchOutcome OaJson, callOpenAI none f = ⟨"OpenAI not configured.", "llm"⟩) ∧
    (∀ (k : String) (st : Nat) (txt : String),
      callGemini (some k) (.httpErr st txt) =
        ⟨"LLM error " ++ Nat.repr st ++ ": " ++ txt, "llm"⟩) ∧
    (∀ (k msg : String),
      callGemini (some k) (.netErr msg) = ⟨"LLM exception: " ++ msg, "llm"⟩) ∧
    (∀ (k msg : String),
      callGemini (some k) (.okBadJson msg) = ⟨"LLM exception: " ++ msg, "llm"⟩) ∧
    (∀ (ok gk : Option String) (fo : FetchOutcome OaJson) (fg : FetchOutcome GemJson),
      (callAnyLLM ok gk fo fg).source = "llm") ∧
    (∀ (u k msg : String),
      part004CallGemini (some u) (some k) (.netErr msg) = .error msg) ∧
    (∀ (u k msg : String),
      part004CallGemini (some u) (some k) (.okBadJson msg) = .error msg) ∧
    (∀ (k : Option String) (f : FetchOutcome Pt4Json),
      part004CallGemini none k f = .ok "LLM not configured.") ∧
    (∀ (u : Option String) (f : FetchOutcome Pt4Json),
      part004CallGemini u none f = .ok "LLM not configured.") ∧
    (∀ (u k : String) (st : Nat) (txt : String),
      part004CallGemini (some u) (some k) (.httpErr st txt) =
        .ok ("LLM error: " ++ Nat.repr st ++ " " ++ txt)) := by
  refine ⟨?_, ?_, ?_, ?_, ?_, ?_, ?_, ?_, ?_, ?_, ?_, ?_, ?_⟩
  · intro k f
    cases k with
    | none => rfl
    | some k => cases f <;> rfl
  · intro k f
    cases k with
    | none => rfl
    | some k => cases f <;> rfl
  · intro f; rfl
  · intro f; rfl
  · intro k st txt; rfl
  · intro k msg; rfl
  · intro k msg; rfl
  · intro ok gk fo fg
    cases ok with
    | none =>
      cases gk with
      | none => rfl
      | some k => cases fg <;> rfl
    | some k => cases fo <;> rfl
  · intro u k msg; rfl
  · intro u k msg; rfl
  · intro k f
    cases k <;> rfl
  · intro u f
    cases u <;> rfl
  · intro u k st txt; rfl

/-! ## Claim C10 -/

/-- C10: `parseCourses` is total over all field shapes — falsy fields give
`[]`, native arrays are normalized element-wise, strings are JSON-parsed
and, when the parse throws or yields a non-array, fall through to
splitting the raw string on `,`/`;`/`|`; every returned element is a
normalized string. -/
theorem C10_parseCourses_total :
    ∀ (jp : String → JParse) (row : CField),
      (∀ c ∈ parseCourses jp row, isNormalized c.data = true) ∧
      (∀ s : String, (jp s = .jthrow ∨ jp s = .jother) →
        parseCourses jp (.cStr s) = courseFallback s) ∧
      parseCourses jp .cNull = [] ∧
      parseCourses jp (.cStr "") = [] ∧
      (∀ elems : List String, parseCourses jp (.cArr elems) = elems.map normalizeTextStr) ∧
      (∀ s : String, parseCourses jp (.cOther s) = courseFallback s) := by
  intro jp row
  have hmemMap : ∀ (l : List String) (c : String), c ∈ l.map normalizeTextStr →
      isNormalized c.data = true := by
    intro l c hc
    rcases List.mem_map.mp hc with ⟨x, _, hx⟩
    subst hx
    exact isNormalized_normList x.data
  have hmemFb : ∀ (s c : String), c ∈ courseFallback s → isNormalized c.data = true := by
    intro s c hc
    unfold courseFallback at hc
    have := List.mem_of_mem_filter hc
    exact hmemMap _ c this
  have hstr : ∀ s : String, s ≠ "" → parseCourses jp (.cStr s) =
      (match jp s with
       | .jarr elems => elems.map normalizeTextStr
       | _ => courseFallback s) := by
    intro s hs
    unfold parseCourses
    have ht : cTruthy (.cStr s) = true := by simp [cTruthy, hs]
    rw [ht]
    simp
  refine ⟨?_, ?_, rfl, rfl, ?_, ?_⟩
  · intro c hc
    cases row with
    | cNull =>
      rw [show parseCourses jp .cNull = [] from rfl] at hc
      cases hc
    | cArr elems =>
      rw [show parseCourses jp (.cArr elems) = elems.map normalizeTextStr from rfl] at hc
      exact hmemMap _ c hc
    | cOther s =>
      rw [show parseCourses jp (.cOther s) = courseFallback s from rfl] at hc
      exact hmemFb s c hc
    | cStr s =>
      by_cases hse : s = ""
      · subst hse
        rw [show parseCourses jp (.cStr "") = [] from rfl] at hc
        cases hc
      · rw [hstr s hse] at hc
        cases hjp : jp s with
        | jarr elems =>
          rw [hjp] at hc
          exact hmemMap _ c hc
        | jthrow =>
          rw [hjp] at hc
          exact hmemFb s c hc
        | jother =>
          rw [hjp] at hc
          exact hmemFb s c hc
  · intro s hs
    by_cases hse : s = ""
    · subst hse
      rw [show parseCourses jp (.cStr "") = [] from rfl]
      rfl
    · rw [hstr s hse]
      rcases hs with h | h <;> rw [h]
  · intro elems
    rfl
  · intro s
    rfl

/-- Witness for C10 at a malformed-JSON string field. -/
theorem C10_parseCourses_witness :
    (jpNone "[broken" = .jthrow ∨ jpNone "[broken" = .jother) ∧
    parseCourses jpNone (.cStr "[broken") = courseFallback "[broken" :=
  ⟨Or.inl rfl, (C10_parseCourses_total jpNone (.cStr "[broken")).2.1 "[broken" (Or.inl rfl)⟩

/-! ## Claim C6 -/

/-- C6: whole-word alias matching — the alias test fires only when the
surface form occurs in the normalized query as a literal whole word
(non-word character or string edge on both sides); in particular a query
containing "cseX" does not trigger the "cse" alias, while a query
containing "cse" as a word does. -/
theorem C6_alias_whole_word :
    (∀ q k : String, aliasTest k (normalizeTextStr q) = true →
      WholeWordIn (normalizeTextStr q).data k.data) ∧
    aliasTest "cse" (normalizeTextStr "who leads cseX") = false ∧
    aliasTest "cse" (normalizeTextStr "who leads cse here") = true :=
  ⟨fun _ _ h => aliasTest_wholeWord h, by decide, by decide⟩

/-- Witness for C6 at a concrete query. -/
theorem C6_alias_whole_word_witness :
    aliasTest "cse" (normalizeTextStr "the cse dept") = true ∧
    WholeWordIn (normalizeTextStr "the cse dept").data "cse".data :=
  ⟨by decide, C6_alias_whole_word.1 "the cse dept" "cse" (by decide)⟩

/-! ## Claim C3 -/

/-- C3 counterexample: alias expansion does not append — expanding "cse"
replaces the surface form (the original text "cse" is gone from the
result), and expansion is not idempotent: a second expansion of the
canonical phrase duplicates its suffix, because the entry
"computer science" matches the canonical text and is substituted again. -/
theorem C3_alias_append_counterexample :
    expandAliases "cse" = "computer science and engineering" ∧
    jsIncludes (expandAliases "cse") "cse" = false ∧
    expandAliases (expandAliases "cse") =
      "computer science and engineering and engineering" ∧
    expandAliases (expandAliases "cse") ≠ expandAliases "cse" :=
  ⟨by decide, by decide, by decide, by decide⟩

/-- C3 amended: each alias entry whose surface form occurs as a whole word
in the normalized query has the canonical phrase substituted for the first
whole-word match of the surface form in the running query text (the
surface form is replaced, not kept, and there is no already-present
check); entries that do not match leave the text unchanged.  Expansion is
consequently not idempotent in general. -/
theorem C3_alias_substitution :
    (∀ (qNorm eff : String) (kv : String × String), aliasTest kv.1 qNorm = false →
      aliasStep qNorm eff kv = eff) ∧
    (∀ (qNorm eff : String) (kv : String × String) (i len : Nat),
      aliasTest kv.1 qNorm = true → findWW kv.1.data eff.data = some (i, len) →
      aliasStep qNorm eff kv =
        String.mk (eff.data.take i ++ kv.2.data ++ eff.data.drop (i + len))) ∧
    expandAliases "cse" = "computer science and engineering" ∧
    expandAliases (expandAliases "cse") =
      "computer science and engineering and engineering" := by
  refine ⟨?_, ?_, by decide, by decide⟩
  · intro qNorm eff kv h
    unfold aliasStep
    rw [h]
    simp
  · intro qNorm eff kv i len h1 h2
    unfold aliasStep
    rw [h1]
    simp only [if_true]
    unfold replaceFirst
    rw [h2]

/-- Witness for C3 (amended) at concrete entries. -/
theorem C3_alias_substitution_witness :
    (aliasTest "hsit" (normalizeTextStr "cse") = false ∧
     aliasStep (normalizeTextStr "cse") "cse"
       ("hsit", "hirasugar institute of technology") = "cse") ∧
    (aliasTest "cse" (normalizeTextStr "cse") = true ∧
     findWW "cse".data "cse".data = some (0, 3) ∧
     aliasStep (normalizeTextStr "cse") "cse" ("cse", "computer science and engineering") =
       String.mk ("cse".data.take 0 ++ "computer science and engineering".data ++
         "cse".data.drop (0 + 3))) :=
  ⟨⟨by decide, C3_alias_substitution.1 (normalizeTextStr "cse") "cse"
      ("hsit", "hirasugar institute of technology") (by decide)⟩,
   ⟨by decide, by decide, C3_alias_substitution.2.1 (normalizeTextStr "cse") "cse"
      ("cse", "computer science and engineering") 0 3 (by decide) (by decide)⟩⟩

/-! ## Claim C4 -/

/-- C4 counterexample: the input "ab" has normalized length 2, yet the
ask.js handler does not return the greeting — it proceeds down the
pipeline (here: to the LLM fallback of an unconfigured-store environment),
contacting the LLM provider.  The length-≤2 guard exists only in the
part_001 revision. -/
theorem C4_short_query_counterexample :
    (normalizeTextStr (jsTrim "ab")).length = 2 ∧
    handler envNoDb "ab" =
      ⟨.resp "x" "llm" (some "supabase not configured"), false, true⟩ ∧
    handler envNoDb "ab" ≠ ⟨.resp greetingText "generic" none, false, false⟩ :=
  ⟨by decide, by decide, by decide⟩

/-- C4 amended: in ask.js the greeting guard fires exactly on the greeting
tokens hi/hello/hey/ok/yo (returning the fixed greeting with source
"generic" and contacting neither the data store nor the LLM); the
length-≤2 rule holds only in the part_001 revision, whose guard also fires
on every normalized query of length 1–2. -/
theorem C4_greeting_guard :
    (∀ (env : Env) (q : String), normalizeTextStr (jsTrim q) ∈ askGreetings →
      handler env q = ⟨.resp greetingText "generic" none, false, false⟩) ∧
    (∀ s : String, (1 ≤ s.length ∧ s.length ≤ 2) ∨ s ∈ part001Greetings →
      part001GreetingGuard s = true) := by
  constructor
  · intro env q h
    have hne : ¬jsTrim q = "" := by
      intro h0
      rw [h0] at h
      rw [show normalizeTextStr "" = "" from rfl] at h
      simp [askGreetings] at h
    unfold handler
    rw [if_neg hne]
    dsimp only
    have hc : askGreetings.contains (normalizeTextStr (jsTrim q)) = true :=
      List.elem_iff.mpr h
    rw [hc]
    simp
  · intro s h
    unfold part001GreetingGuard
    rcases h with ⟨h1, h2⟩ | h
    · have : (decide (s.length ≤ 2) && decide (1 ≤ s.length)) = true := by
        simp [h1, h2]
      rw [this]
      simp
    · have : part001Greetings.contains s = true := List.elem_iff.mpr h
      rw [this]
      simp

/-- Witness for C4 (amended) at concrete inputs. -/
theorem C4_greeting_guard_witness :
    (normalizeTextStr (jsTrim "hi") ∈ askGreetings ∧
     handler envNoDb "hi" = ⟨.resp greetingText "generic" none, false, false⟩) ∧
    ((1 ≤ ("ab" : String).length ∧ ("ab" : String).length ≤ 2) ∧
     part001GreetingGuard "ab" = true) :=
  ⟨⟨by decide, C4_greeting_guard.1 envNoDb "hi" (by decide)⟩,
   ⟨by decide, C4_greeting_guard.2 "ab" (Or.inl (by decide))⟩⟩

/-! ## Claim C5 -/

/-- C5 counterexample: for "cse hod" against a candidate set with exactly
one Head-of-Department record (`hodRowA`, department containing "computer
science") and a same-department non-HOD record with a higher token-overlap
score (`hodRowB`), the handler returns the non-HOD record: there is no
role-first pass. -/
theorem C5_role_first_counterexample :
    hodRowA.designation = "Head of Department" ∧
    jsIncludes (normalizeTextStr hodRowA.department) "computer science" = true ∧
    hodRowB.designation = "Professor" ∧
    scorePersonRow jpNone hodRowB (tokenize (expandAliases "cse hod")) >
      scorePersonRow jpNone hodRowA (tokenize (expandAliases "cse hod")) ∧
    handler envHod "cse hod" =
      ⟨.resp (formatPersonRow jpNone hodRowB) "supabase-faculty" none, true, false⟩ ∧
    formatPersonRow jpNone hodRowB ≠ formatPersonRow jpNone hodRowA :=
  ⟨by decide, by decide, by decide, by decide, by decide, by decide⟩

/-- C5 amended: ask.js has no role-first pass — candidates are ranked only
by `scorePersonRow`, which is independent of the designation field, so in
the C5 scenario the same-department non-HOD record with the higher
token-overlap score is selected instead of the HOD record. -/
theorem C5_no_role_pass :
    (∀ (jp : String → JParse) (row : Row) (d : String) (tokens : List String),
      scorePersonRow jp { row with designation := d } tokens =
        scorePersonRow jp row tokens) ∧
    handler envHod "cse hod" =
      ⟨.resp (formatPersonRow jpNone hodRowB) "supabase-faculty" none, true, false⟩ := by
  constructor
  · intro jp row d tokens
    cases row
    rfl
  · decide

/-! ## Claim C1 -/

theorem insertDesc_length (x : TRow × Nat) :
    ∀ l : List (TRow × Nat), (insertDesc x l).length = l.length + 1 := by
  intro l
  induction l with
  | nil => rfl
  | cons y ys ih =>
    unfold insertDesc
    split
    · simp
    · simpa using ih

theorem sortScored_length : ∀ l : List (TRow × Nat), (sortScored l).length = l.length := by
  intro l
  induction l with
  | nil => rfl
  | cons x xs ih =>
    show (insertDesc x (sortScored xs)).length = xs.length + 1
    rw [insertDesc_length, ih]

/-- C1: the people-path decision gate — whenever the sorted candidates
start with a best score of at least the absolute threshold 6 and either
the second-best score is zero or `20*best ≥ 23*second` (the exact form of
`best ≥ second × 1.15`), the handler answers confidently with the best
record, formatted, under the source tag of its collection.  The `Math.max`
in the code is redundant under the threshold hypothesis, so this is the
exact gate.  Concretely, scores 10 and 4 produce the confident answer for
the 10-record, while scores 10 and 9 fall through to the
suggestions/LLM-preferred branch. -/
theorem C1_decision_gate :
    (∀ (jp : String → JParse) (llm : String → LlmResult) (facRes staffRes : Fetch)
       (tokens : List String) (effq : String) (b : TRow × Nat) (rest : List (TRow × Nat)),
      sortScored ((tagRows "faculty_list" facRes ++ tagRows "staff" staffRes).map
        (fun r => (r, scorePersonRow jp r.row tokens))) = b :: rest →
      b.2 ≥ 6 →
      (secondScoreOf (b :: rest) = 0 ∨ 20 * b.2 ≥ 23 * secondScoreOf (b :: rest)) →
      handlePeople jp llm facRes staffRes tokens effq =
        ⟨.resp (formatPersonRow jp b.1.row)
          (if b.1.table = "staff" then "supabase-staff" else "supabase-faculty") none,
          true, false⟩) ∧
    handlePeople jpNone llmConst (.fulfilled (some [tenRow, fourRow])) (.fulfilled (some []))
      ["operating", "systems"] "q" =
      ⟨.resp (formatPersonRow jpNone tenRow) "supabase-faculty" none, true, false⟩ ∧
    handlePeople jpNone llmConst (.fulfilled (some [tenRow, nineRow])) (.fulfilled (some []))
      ["operating", "systems"] "q" =
      ⟨.resp "LLMANS" "llm" (some "people-suggestions-llm-preferred"), true, true⟩ ∧
    scorePersonRow jpNone tenRow ["operating", "systems"] = 10 ∧
    scorePersonRow jpNone fourRow ["operating", "systems"] = 4 ∧
    scorePersonRow jpNone nineRow ["operating", "systems"] = 9 ∧
    decisionGate 10 4 = true ∧
    decisionGate 10 9 = false := by
  refine ⟨?_, by decide, by decide, by decide, by decide, by decide, by decide, by decide⟩
  intro jp llm facRes staffRes tokens effq b rest hsort hb hsecond
  have hgate : decisionGate b.2 (secondScoreOf (b :: rest)) = true := by
    unfold decisionGate
    have hb6 : decide (b.2 ≥ 6) = true := by simpa using hb
    rcases hsecond with h0 | hr
    · rw [hb6, h0]
      simp
    · have hmax : max (20 * 6) (23 * secondScoreOf (b :: rest)) ≤ 20 * b.2 :=
        Nat.max_le.mpr ⟨by omega, hr⟩
      have h2 : decide (20 * b.2 ≥ max (20 * 6) (23 * secondScoreOf (b :: rest))) = true := by
        simpa using hmax
      rw [hb6, h2]
      simp
  have hrowsne : (tagRows "faculty_list" facRes ++ tagRows "staff" staffRes) ≠ [] := by
    intro h0
    rw [h0] at hsort
    simp [sortScored] at hsort
  have hempty : (tagRows "faculty_list" facRes ++ tagRows "staff" staffRes).isEmpty = false := by
    cases hc : (tagRows "faculty_list" facRes ++ tagRows "staff" staffRes) with
    | nil => exact absurd hc hrowsne
    | cons x xs => rfl
  unfold handlePeople
  dsimp only
  rw [hempty]
  simp only [Bool.false_eq_true, if_false]
  rw [hsort]
  dsimp only
  rw [hgate]
  simp

/-- Witness for C1 at the concrete 10-vs-4 pair. -/
theorem C1_decision_gate_witness :
    sortScored ((tagRows "faculty_list" (.fulfilled (some [tenRow, fourRow])) ++
        tagRows "staff" (.fulfilled (some []))).map
      (fun r => (r, scorePersonRow jpNone r.row ["operating", "systems"]))) =
      (⟨⟨tenRow, "faculty_list"⟩, 10⟩ : TRow × Nat) :: [⟨⟨fourRow, "faculty_list"⟩, 4⟩] ∧
    handlePeople jpNone llmConst (.fulfilled (some [tenRow, fourRow])) (.fulfilled (some []))
      ["operating", "systems"] "q" =
      ⟨.resp (formatPersonRow jpNone (⟨⟨tenRow, "faculty_list"⟩, 10⟩ : TRow × Nat).1.row)
        (if (⟨⟨tenRow, "faculty_list"⟩, 10⟩ : TRow × Nat).1.table = "staff" then
          "supabase-staff" else "supabase-faculty") none, true, false⟩ :=
  ⟨by decide,
   C1_decision_gate.1 jpNone llmConst (.fulfilled (some [tenRow, fourRow]))
     (.fulfilled (some [])) ["operating", "systems"] "q"
     (⟨⟨tenRow, "faculty_list"⟩, 10⟩ : TRow × Nat) [⟨⟨fourRow, "faculty_list"⟩, 4⟩]
     (by decide) (by decide) (Or.inr (by decide))⟩

/-! ## Claim C2 -/

/-- C2 (code bug in ask.js): the end-to-end example "who teaches OS" never
reaches the database — the wh-general heuristic intercepts it (the query
starts with "who" and the token "who" is in `GENERAL_ENTITIES`), so the
handler answers from the LLM with no data-store contact, although the
alias correctly expands "OS" to "operating systems" and the people path,
had it been reached, would have produced a confident match for the
`raoRow` record (score 9 ≥ 6, no rival) citing the course and tagged with
the faculty collection. -/
theorem C2_who_teaches_os :
    handler envRao "who teaches OS" =
      ⟨.resp "LLMANS" "llm" (some "wh-general-heuristic"), false, true⟩ ∧
    expandAliases "who teaches OS" = "who teaches operating systems" ∧
    handlePeople jpNone llmConst (.fulfilled (some [raoRow])) (.fulfilled (some []))
      (tokenize (expandAliases "who teaches OS")) (expandAliases "who teaches OS") =
      ⟨.resp "A. Rao — Assistant Professor\nCourses: operating systems"
        "supabase-faculty" none, true, false⟩ ∧
    scorePersonRow jpNone raoRow (tokenize (expandAliases "who teaches OS")) = 9 ∧
    jsIncludes "A. Rao — Assistant Professor\nCourses: operating systems"
      "operating systems" = true :=
  ⟨by decide, by decide, by decide, by decide, by decide⟩

end CollageAsk
